import Mathlib

/-!
Verification of the SMD resistor code decoder (`src/smdresistor/decoder.py`).

The Python source is shallowly embedded: strings become `List Char`,
Python floats become exact rationals (`ℚ`), the `ValueError` exceptions
become the `Except String` error monad, and each regular expression is
translated into an explicit total matching function on character lists.
-/

deriving instance DecidableEq for Except

namespace SmdResistor

/-! ## Character classes and string normalisation

Python `str.strip()` removes the ASCII whitespace characters, `.replace(" ", "")`
removes interior spaces, and `.upper()` maps lowercase ASCII letters to
uppercase (the codes in scope are pure ASCII).
-/

/-- Whitespace characters removed by Python `str.strip()` (space, tab,
newline, carriage return, vertical tab, form feed). -/
def pyWS (c : Char) : Bool :=
  c = ' ' || c = '\t' || c = '\n' || c = '\r' || c = '\x0b' || c = '\x0c'

/-- Python `code.strip()`: drop leading and trailing whitespace. -/
def strip (l : List Char) : List Char :=
  ((l.dropWhile pyWS).reverse.dropWhile pyWS).reverse

/-- The regex class `\d`: an ASCII decimal digit. -/
def isDigit (c : Char) : Bool :=
  48 ≤ c.toNat && c.toNat ≤ 57

/-- The regex class `[a-z]` under the `(?i)` flag: an ASCII letter. -/
def isAsciiLetter (c : Char) : Bool :=
  (65 ≤ c.toNat && c.toNat ≤ 90) || (97 ≤ c.toNat && c.toNat ≤ 122)

/-- The composite `code.strip().replace(" ", "").upper()`: the normalised form that
`decode` matches against.  `Char.toUpper` is the ASCII uppercase map,
exactly what Python `str.upper()` does on the ASCII codes in scope. -/
def normalize (l : List Char) : List Char :=
  ((strip l).filter (fun c => c ≠ ' ')).map Char.toUpper

/-- Numeric value of a single decimal digit character. -/
def digitVal (c : Char) : ℕ := c.toNat - 48

/-- Python `int(...)` on a digit string (also used implicitly by the
significand/exponent splits). -/
def natOfDigits (l : List Char) : ℕ :=
  l.foldl (fun a c => 10 * a + digitVal c) 0

/-! ## The two constant tables -/

/-- Table `EIA96_BASES`: base values corresponding to codes 01..96 (E96 series). -/
def EIA96_BASES : List ℕ :=
  [100, 102, 105, 107, 110, 113, 115, 118, 121, 124, 127, 130,
   133, 137, 140, 143, 147, 150, 154, 158, 162, 165, 169, 174,
   178, 182, 187, 191, 196, 200, 205, 210, 215, 221, 226, 232,
   237, 243, 249, 255, 261, 267, 274, 280, 287, 294, 301, 309,
   316, 324, 332, 340, 348, 357, 365, 374, 383, 392, 402, 412,
   422, 432, 442, 453, 464, 475, 487, 499, 511, 523, 536, 549,
   562, 576, 590, 604, 619, 634, 649, 665, 681, 698, 715, 732,
   750, 768, 787, 806, 825, 845, 866, 887, 909, 931, 953, 976]

/-- Table `EIA96_MULTIPLIERS`: the multiplier-letter dictionary, embedded as
the optional-valued lookup the Python dict denotes (`dict.get`).  The values
1e-3 .. 1e5 are exact rationals. -/
def EIA96_MULTIPLIERS (c : Char) : Option ℚ :=
  if c = 'Z' then some (1/1000)
  else if c = 'Y' then some (1/100)
  else if c = 'R' then some (1/100)   -- sometimes R is used for 0.01 as well
  else if c = 'X' then some (1/10)
  else if c = 'S' then some (1/10)    -- sometimes S is used for 0.1
  else if c = 'A' then some 1
  else if c = 'B' then some 10
  else if c = 'H' then some 10        -- H sometimes used for 10
  else if c = 'C' then some 100
  else if c = 'D' then some 1000
  else if c = 'E' then some 10000
  else if c = 'F' then some 100000
  else none

/-! ## The three regular expressions, as explicit matchers

`_R_CODE_RE  = (?i)^(\d*)r(\d*)$`   : leading digits, the letter R, trailing digits
`_EIA96_RE   = (?i)^(\d{2})([a-z])$`: exactly two digits then one letter
`_DIGIT_RE   = ^(\d{3,4})$`         : exactly three or four digits
-/

/-- Match `(?i)^(\d*)r(\d*)$`, returning the two captured digit groups.
Since a digit is never the letter R, the greedy regex is equivalent to:
consume digits until the first non-digit, require it to be `R` or `r`
(code points 82 and 114), and require the remainder to be all digits. -/
def matchR : List Char → Option (List Char × List Char)
  | [] => none
  | c :: rest =>
    if isDigit c then
      match matchR rest with
      | some (ip, fp) => some (c :: ip, fp)
      | none => none
    else if c.toNat = 82 ∨ c.toNat = 114 then
      if rest.all isDigit then some ([], rest) else none
    else none

/-- Match `(?i)^(\d{2})([a-z])$`, returning the two digits and the letter. -/
def matchEIA96 : List Char → Option (Char × Char × Char)
  | [d1, d2, c] =>
    if isDigit d1 && isDigit d2 && isAsciiLetter c then some (d1, d2, c) else none
  | _ => none

/-- Match `^(\d{3,4})$`, returning the digit string. -/
def matchDigits (l : List Char) : Option (List Char) :=
  if (l.length = 3 ∨ l.length = 4) ∧ l.all isDigit then some l else none

/-! ## The decoder -/

/-- The result record: `ohms` (modelled exactly as a rational) and the
scheme label. -/
structure DecodeResult where
  ohms : ℚ
  scheme : String
deriving DecidableEq

/-- Function `decode(code)`: try R-as-decimal, then EIA-96, then 3/4-digit, in that
order; raise `ValueError` (here: `Except.error` with the same message) when
nothing matches.  In the R branch, Python evaluates
`float(f"<int(int_part)>.<frac_part>")` after defaulting empty groups to
the string of a zero digit; the embedded value is the exact rational
integer part plus fractional digits over the matching power of ten.
In the digit branch the scheme label is the Python f-string
interpolating the length of the digit group. -/
def decode (code : List Char) : Except String DecodeResult :=
  if strip code = [] then .error "code must be a non-empty string"
  else
    match matchR (normalize code) with
    | some (ip, fp) =>
        .ok ⟨(natOfDigits (if ip = [] then ['0'] else ip) : ℚ)
              + (natOfDigits (if fp = [] then ['0'] else fp) : ℚ)
                / (10 : ℚ) ^ (List.length (if fp = [] then ['0'] else fp)),
             "R"⟩
    | none =>
      match matchEIA96 (normalize code) with
      | some (d1, d2, letter) =>
          if 1 ≤ natOfDigits [d1, d2] ∧ natOfDigits [d1, d2] ≤ 96 then
            match EIA96_MULTIPLIERS letter with
            | some mult =>
                .ok ⟨(EIA96_BASES.getD (natOfDigits [d1, d2] - 1) 0 : ℚ) * mult / 100,
                     "EIA-96"⟩
            | none => .error ("unknown EIA-96 multiplier letter: " ++ String.mk [letter])
          else .error ("EIA-96 index out of range: " ++ String.mk [d1, d2])
      | none =>
        match matchDigits (normalize code) with
        | some ds =>
            if ds.length = 3 then
              .ok ⟨(natOfDigits (ds.take 2) : ℚ) * (10 : ℚ) ^ digitVal (ds.getD 2 '0'),
                   "3-digit"⟩
            else
              .ok ⟨(natOfDigits (ds.take 3) : ℚ) * (10 : ℚ) ^ digitVal (ds.getD 3 '0'),
                   "4-digit"⟩
        | none => .error ("unrecognized SMD resistor code: " ++ String.mk code)

/-! ## Formatting

`format_ohms` renders a value with a metric unit symbol.  The mantissa is
rendered in the Python general format with `precision`
significant digits, trailing zeros trimmed, and scientific form when the
decimal exponent falls outside `[-4, precision)`.  The spec leaves the
rounding mode at half-way points open; we embed round-half-even, the
convention of the general-number format.
-/

/-- Round to the nearest integer, halves to even. -/
def rhe (x : ℚ) : ℤ :=
  if Int.fract x < 1/2 then ⌊x⌋
  else if 1/2 < Int.fract x then ⌊x⌋ + 1
  else if 2 ∣ ⌊x⌋ then ⌊x⌋ else ⌊x⌋ + 1

/-- Trim trailing zero digits. -/
def stripZeros (l : List Char) : List Char :=
  (l.reverse.dropWhile (fun c => c = '0')).reverse

/-- Decimal digit characters of a natural number, most significant first. -/
def natToChars (n : ℕ) : List Char := Nat.toDigits 10 n

/-- The Python general format of a non-negative rational at `prec`
significant digits: round to `max prec 1` digits, trim trailing zeros, pick
plain or scientific form by the rounded decimal exponent. -/
def gfmt (x : ℚ) (prec : ℕ) : String :=
  let p := max prec 1
  if x = 0 then "0"
  else
    let e0 : ℤ := Int.log 10 x
    let m0 : ℕ := (rhe (x * (10 : ℚ) ^ ((p : ℤ) - 1 - e0))).toNat
    let m : ℕ := if m0 = 10 ^ p then 10 ^ (p - 1) else m0
    let e : ℤ := if m0 = 10 ^ p then e0 + 1 else e0
    let ds : List Char := natToChars m
    if -4 ≤ e ∧ e < (p : ℤ) then
      if 0 ≤ e then
        let ip := ds.take (e.toNat + 1)
        let fp := stripZeros (ds.drop (e.toNat + 1))
        if fp = [] then String.mk ip else String.mk (ip ++ '.' :: fp)
      else
        String.mk ('0' :: '.' :: (List.replicate (e.natAbs - 1) '0' ++ stripZeros ds))
    else
      let mant := if stripZeros ds.tail = [] then ds.take 1
                  else ds.take 1 ++ '.' :: stripZeros ds.tail
      let es := if e < 0 then "-" else "+"
      let epad := if e.natAbs < 10 then String.mk ('0' :: natToChars e.natAbs)
                  else String.mk (natToChars e.natAbs)
      String.mk mant ++ "e" ++ es ++ epad

/-- Function `format_ohms(ohms, precision=3)`: raise `ValueError` on a negative
value, otherwise choose the largest unit in `[(1e6, MΩ), (1e3, kΩ),
(1, Ω), (1e-3, mΩ)]` whose factor the value reaches, falling through to
µΩ, and render `ohms / factor` with `gfmt`. -/
def format_ohms (ohms : ℚ) (precision : ℕ := 3) : Except String String :=
  if ohms < 0 then .error "ohms must be non-negative"
  else if 1000000 ≤ ohms then .ok (gfmt (ohms / 1000000) precision ++ "MΩ")
  else if 1000 ≤ ohms then .ok (gfmt (ohms / 1000) precision ++ "kΩ")
  else if 1 ≤ ohms then .ok (gfmt (ohms / 1) precision ++ "Ω")
  else if 1/1000 ≤ ohms then .ok (gfmt (ohms / (1/1000)) precision ++ "mΩ")
  else .ok (gfmt (ohms / (1/1000000)) precision ++ "µΩ")

/-! ## Branch dispatch lemmas

Each lemma evaluates `decode` along one control path, given the outcome of
the guard and of the pattern matches on the normalised input.
-/

theorem decode_r_branch (l ip fp : List Char) (hne : strip l ≠ [])
    (h : matchR (normalize l) = some (ip, fp)) :
    decode l = .ok ⟨(natOfDigits (if ip = [] then ['0'] else ip) : ℚ)
        + (natOfDigits (if fp = [] then ['0'] else fp) : ℚ)
          / (10 : ℚ) ^ (List.length (if fp = [] then ['0'] else fp)), "R"⟩ := by
  unfold decode
  rw [if_neg hne, h]

theorem decode_eia_branch (l : List Char) (d1 d2 c : Char) (m : ℚ) (hne : strip l ≠ [])
    (hR : matchR (normalize l) = none)
    (hE : matchEIA96 (normalize l) = some (d1, d2, c))
    (hidx : 1 ≤ natOfDigits [d1, d2] ∧ natOfDigits [d1, d2] ≤ 96)
    (hm : EIA96_MULTIPLIERS c = some m) :
    decode l = .ok ⟨(EIA96_BASES.getD (natOfDigits [d1, d2] - 1) 0 : ℚ) * m / 100,
        "EIA-96"⟩ := by
  unfold decode
  rw [if_neg hne, hR, hE]
  simp only [if_pos hidx, hm]

theorem decode_eia_range_error (l : List Char) (d1 d2 c : Char) (hne : strip l ≠ [])
    (hR : matchR (normalize l) = none)
    (hE : matchEIA96 (normalize l) = some (d1, d2, c))
    (hidx : ¬(1 ≤ natOfDigits [d1, d2] ∧ natOfDigits [d1, d2] ≤ 96)) :
    decode l = .error ("EIA-96 index out of range: " ++ String.mk [d1, d2]) := by
  unfold decode
  rw [if_neg hne, hR, hE]
  simp only [if_neg hidx]

theorem decode_eia_mult_error (l : List Char) (d1 d2 c : Char) (hne : strip l ≠ [])
    (hR : matchR (normalize l) = none)
    (hE : matchEIA96 (normalize l) = some (d1, d2, c))
    (hidx : 1 ≤ natOfDigits [d1, d2] ∧ natOfDigits [d1, d2] ≤ 96)
    (hm : EIA96_MULTIPLIERS c = none) :
    decode l = .error ("unknown EIA-96 multiplier letter: " ++ String.mk [c]) := by
  unfold decode
  rw [if_neg hne, hR, hE]
  simp only [if_pos hidx, hm]

theorem decode_digit3_branch (l ds : List Char) (hne : strip l ≠ [])
    (hR : matchR (normalize l) = none) (hE : matchEIA96 (normalize l) = none)
    (hD : matchDigits (normalize l) = some ds) (hlen : ds.length = 3) :
    decode l = .ok ⟨(natOfDigits (ds.take 2) : ℚ) * (10 : ℚ) ^ digitVal (ds.getD 2 '0'),
        "3-digit"⟩ := by
  unfold decode
  rw [if_neg hne, hR, hE, hD]
  simp only [if_pos hlen]

theorem decode_digit4_branch (l ds : List Char) (hne : strip l ≠ [])
    (hR : matchR (normalize l) = none) (hE : matchEIA96 (normalize l) = none)
    (hD : matchDigits (normalize l) = some ds) (hlen : ds.length = 4) :
    decode l = .ok ⟨(natOfDigits (ds.take 3) : ℚ) * (10 : ℚ) ^ digitVal (ds.getD 3 '0'),
        "4-digit"⟩ := by
  unfold decode
  rw [if_neg hne, hR, hE, hD]
  simp only [if_neg (show ¬ds.length = 3 by rw [hlen]; omega)]

theorem decode_empty_error (l : List Char) (h : strip l = []) :
    decode l = .error "code must be a non-empty string" := by
  unfold decode
  rw [if_pos h]

theorem decode_nomatch_error (l : List Char) (hR : matchR (normalize l) = none)
    (hE : matchEIA96 (normalize l) = none) (hD : matchDigits (normalize l) = none) :
    ∃ e, decode l = .error e := by
  unfold decode
  by_cases hne : strip l = []
  · exact ⟨_, by rw [if_pos hne]⟩
  · exact ⟨_, by rw [if_neg hne, hR, hE, hD]⟩

/-! ## Character facts -/

theorem char_eq_of_toNat_eq {c d : Char} (h : c.toNat = d.toNat) : c = d := by
  have hc := Char.ofNat_toNat c
  rw [h, Char.ofNat_toNat d] at hc
  exact hc.symm

theorem char_ne_of_toNat_ne {c d : Char} (h : c.toNat ≠ d.toNat) : c ≠ d :=
  fun he => h (by rw [he])

theorem toNat_ne_of_ne {c d : Char} (h : c ≠ d) : c.toNat ≠ d.toNat :=
  fun he => h (char_eq_of_toNat_eq he)

theorem pyWS_eq_false {c : Char} (h : 33 ≤ c.toNat) : pyWS c = false := by
  simp only [pyWS, Bool.or_eq_false_iff, decide_eq_false_iff_not]
  refine ⟨⟨⟨⟨⟨?_, ?_⟩, ?_⟩, ?_⟩, ?_⟩, ?_⟩ <;>
    exact fun he => absurd (he ▸ h) (by decide)

theorem ne_space {c : Char} (h : 33 ≤ c.toNat) : c ≠ ' ' :=
  fun he => absurd (he ▸ h) (by decide)

theorem char_toNat_ofNat {n : ℕ} (h : n < 55296) : (Char.ofNat n).toNat = n := by
  have hv : n.isValidChar := Or.inl h
  rw [Char.ofNat, dif_pos hv]
  simp [Char.ofNatAux, Char.toNat, UInt32.toNat]

theorem toUpper_eq_self {c : Char} (h : c.toNat < 97) : c.toUpper = c := by
  simp only [Char.toUpper]
  rw [if_neg (by omega)]

theorem toUpper_toNat_lower {c : Char} (h1 : 97 ≤ c.toNat) (h2 : c.toNat ≤ 122) :
    (c.toUpper).toNat = c.toNat - 32 := by
  simp only [Char.toUpper]
  rw [if_pos ⟨h1, h2⟩]
  exact char_toNat_ofNat (by omega)

theorem isDigit_toUpper {c : Char} (h : isDigit c = true) : c.toUpper = c := by
  simp only [isDigit, Bool.and_eq_true, decide_eq_true_eq] at h
  exact toUpper_eq_self (by omega)

theorem isDigit_iff {c : Char} : isDigit c = true ↔ 48 ≤ c.toNat ∧ c.toNat ≤ 57 := by
  simp [isDigit]

theorem isAsciiLetter_iff {c : Char} :
    isAsciiLetter c = true ↔ (65 ≤ c.toNat ∧ c.toNat ≤ 90) ∨ (97 ≤ c.toNat ∧ c.toNat ≤ 122) := by
  simp [isAsciiLetter]

/-- Uppercasing an ASCII letter lands in the uppercase range, and the result
is the letter R exactly when the input was R or r. -/
theorem toUpper_letter_facts {c : Char} (h : isAsciiLetter c = true) :
    65 ≤ (c.toUpper).toNat ∧ (c.toUpper).toNat ≤ 90 ∧
    ((c.toUpper).toNat = 82 ↔ (c.toNat = 82 ∨ c.toNat = 114)) := by
  rcases isAsciiLetter_iff.mp h with ⟨h1, h2⟩ | ⟨h1, h2⟩
  · rw [toUpper_eq_self (by omega)]
    omega
  · rw [toUpper_toNat_lower h1 h2]
    omega

/-! ## Normalisation facts -/

theorem dropWhile_eq_self_of {p : Char → Bool} {l : List Char}
    (h : ∀ c ∈ l, p c = false) : l.dropWhile p = l := by
  cases l with
  | nil => rfl
  | cons a t => simp [List.dropWhile_cons, h a (List.mem_cons_self a t)]

theorem strip_eq_self {l : List Char} (h : ∀ c ∈ l, pyWS c = false) : strip l = l := by
  unfold strip
  rw [dropWhile_eq_self_of h,
      dropWhile_eq_self_of (fun c hc => h c (List.mem_reverse.mp hc)),
      List.reverse_reverse]

theorem filter_nonspace_eq_self {l : List Char} (h : ∀ c ∈ l, c ≠ ' ') :
    l.filter (fun c => c ≠ ' ') = l := by
  induction l with
  | nil => rfl
  | cons a t ih =>
    rw [List.filter_cons, if_pos (by simpa using h a (List.mem_cons_self a t)),
        ih (fun c hc => h c (List.mem_cons_of_mem a hc))]

theorem map_toUpper_eq_self {l : List Char} (h : ∀ c ∈ l, c.toNat < 97) :
    l.map Char.toUpper = l := by
  induction l with
  | nil => rfl
  | cons a t ih =>
    rw [List.map_cons, toUpper_eq_self (h a (List.mem_cons_self a t)),
        ih (fun c hc => h c (List.mem_cons_of_mem a hc))]

/-- A string of digits and uppercase letters is untouched by normalisation. -/
theorem normalize_eq_self {l : List Char} (h : ∀ c ∈ l, 33 ≤ c.toNat ∧ c.toNat < 97) :
    normalize l = l := by
  unfold normalize
  rw [strip_eq_self (fun c hc => pyWS_eq_false (h c hc).1),
      filter_nonspace_eq_self (fun c hc => ne_space (h c hc).1),
      map_toUpper_eq_self (fun c hc => (h c hc).2)]

theorem strip_eq_self_of_plain {l : List Char} (h : ∀ c ∈ l, 33 ≤ c.toNat) :
    strip l = l :=
  strip_eq_self (fun c hc => pyWS_eq_false (h c hc))

theorem strip_ne_nil_of_normalize {l : List Char} (h : normalize l ≠ []) :
    strip l ≠ [] := by
  intro he
  apply h
  unfold normalize
  rw [he]
  rfl

/-! ## Matcher facts -/

theorem matchR_all_digits {l : List Char} (h : l.all isDigit = true) :
    matchR l = none := by
  induction l with
  | nil => rfl
  | cons a t ih =>
    rw [List.all_cons, Bool.and_eq_true] at h
    rw [matchR, if_pos h.1, ih h.2]

theorem matchR_digits_r_digits {a b : List Char} (ha : a.all isDigit = true)
    (hb : b.all isDigit = true) : matchR (a ++ 'R' :: b) = some (a, b) := by
  induction a with
  | nil =>
    rw [List.nil_append, matchR, if_neg (by decide), if_pos (by left; rfl), if_pos hb]
  | cons x t ih =>
    rw [List.all_cons, Bool.and_eq_true] at ha
    rw [List.cons_append, matchR, if_pos ha.1, ih ha.2]

theorem isDigit_false_of_ge {c : Char} (h : 58 ≤ c.toNat) : isDigit c = false := by
  simp only [isDigit, Bool.and_eq_false_iff, decide_eq_false_iff_not]
  omega

theorem matchR_two_digits_letter {d1 d2 c : Char} (h1 : isDigit d1 = true)
    (h2 : isDigit d2 = true) (hc : isDigit c = false)
    (h82 : c.toNat ≠ 82) (h114 : c.toNat ≠ 114) :
    matchR [d1, d2, c] = none := by
  rw [matchR, if_pos h1, matchR, if_pos h2, matchR, if_neg (by rw [hc]; exact nofun),
      if_neg (by omega)]

theorem matchEIA96_some {d1 d2 c : Char} (h1 : isDigit d1 = true)
    (h2 : isDigit d2 = true) (hc : isAsciiLetter c = true) :
    matchEIA96 [d1, d2, c] = some (d1, d2, c) := by
  rw [matchEIA96, if_pos (by rw [h1, h2, hc]; rfl)]

theorem matchEIA96_three_digits {d1 d2 d3 : Char} (h3 : isDigit d3 = true) :
    matchEIA96 [d1, d2, d3] = none := by
  have : isAsciiLetter d3 = false := by
    rcases isDigit_iff.mp h3 with ⟨hl, hh⟩
    simp only [isAsciiLetter, Bool.or_eq_false_iff, Bool.and_eq_false_iff,
      decide_eq_false_iff_not]
    omega
  rw [matchEIA96, if_neg (by rw [this]; simp)]

theorem matchEIA96_length {l : List Char} (h : l.length ≠ 3) : matchEIA96 l = none := by
  match l with
  | [] => rfl
  | [_] => rfl
  | [_, _] => rfl
  | [_, _, _] => exact absurd rfl h
  | _ :: _ :: _ :: _ :: _ => rfl

theorem matchDigits_some {l : List Char} (hlen : l.length = 3 ∨ l.length = 4)
    (h : l.all isDigit = true) : matchDigits l = some l := by
  rw [matchDigits, if_pos ⟨hlen, h⟩]

/-! ## Multiplier table facts -/

theorem mult_keys {c : Char} {m : ℚ} (h : EIA96_MULTIPLIERS c = some m) :
    c = 'Z' ∨ c = 'Y' ∨ c = 'R' ∨ c = 'X' ∨ c = 'S' ∨ c = 'A' ∨ c = 'B' ∨
    c = 'H' ∨ c = 'C' ∨ c = 'D' ∨ c = 'E' ∨ c = 'F' := by
  unfold EIA96_MULTIPLIERS at h
  by_cases h1 : c = 'Z'
  · exact Or.inl h1
  rw [if_neg h1] at h
  by_cases h2 : c = 'Y'
  · exact Or.inr (Or.inl h2)
  rw [if_neg h2] at h
  by_cases h3 : c = 'R'
  · exact Or.inr (Or.inr (Or.inl h3))
  rw [if_neg h3] at h
  by_cases h4 : c = 'X'
  · exact Or.inr (Or.inr (Or.inr (Or.inl h4)))
  rw [if_neg h4] at h
  by_cases h5 : c = 'S'
  · exact Or.inr (Or.inr (Or.inr (Or.inr (Or.inl h5))))
  rw [if_neg h5] at h
  by_cases h6 : c = 'A'
  · exact Or.inr (Or.inr (Or.inr (Or.inr (Or.inr (Or.inl h6)))))
  rw [if_neg h6] at h
  by_cases h7 : c = 'B'
  · exact Or.inr (Or.inr (Or.inr (Or.inr (Or.inr (Or.inr (Or.inl h7))))))
  rw [if_neg h7] at h
  by_cases h8 : c = 'H'
  · exact Or.inr (Or.inr (Or.inr (Or.inr (Or.inr (Or.inr (Or.inr (Or.inl h8)))))))
  rw [if_neg h8] at h
  by_cases h9 : c = 'C'
  · exact Or.inr (Or.inr (Or.inr (Or.inr (Or.inr (Or.inr (Or.inr (Or.inr (Or.inl h9))))))))
  rw [if_neg h9] at h
  by_cases h10 : c = 'D'
  · exact Or.inr (Or.inr (Or.inr (Or.inr (Or.inr (Or.inr (Or.inr (Or.inr (Or.inr (Or.inl h10)))))))))
  rw [if_neg h10] at h
  by_cases h11 : c = 'E'
  · exact Or.inr (Or.inr (Or.inr (Or.inr (Or.inr (Or.inr (Or.inr (Or.inr (Or.inr (Or.inr (Or.inl h11))))))))))
  rw [if_neg h11] at h
  by_cases h12 : c = 'F'
  · exact Or.inr (Or.inr (Or.inr (Or.inr (Or.inr (Or.inr (Or.inr (Or.inr (Or.inr (Or.inr (Or.inr h12))))))))))
  rw [if_neg h12] at h
  exact absurd h (by simp)

theorem mult_value_at {c : Char} : ∀ {m : ℚ}, EIA96_MULTIPLIERS c = some m →
    m = 1/1000 ∨ m = 1/100 ∨ m = 1/10 ∨ m = 1 ∨ m = 10 ∨ m = 100 ∨ m = 1000 ∨
    m = 10000 ∨ m = 100000 := by
  intro m h
  rcases mult_keys h with rfl | rfl | rfl | rfl | rfl | rfl | rfl | rfl | rfl | rfl | rfl | rfl <;>
    rw [show EIA96_MULTIPLIERS _ = _ from rfl] at h <;>
    rcases Option.some.inj h with rfl <;> tauto

theorem mult_pos {c : Char} {m : ℚ} (h : EIA96_MULTIPLIERS c = some m) : 0 < m := by
  rcases mult_value_at h with rfl | rfl | rfl | rfl | rfl | rfl | rfl | rfl | rfl <;> norm_num

/-- A multiplier-table key other than R is an uppercase letter that the
R-as-decimal pattern cannot match. -/
theorem key_facts {c : Char} {m : ℚ} (h : EIA96_MULTIPLIERS c = some m) (hc : c ≠ 'R') :
    isDigit c = false ∧ isAsciiLetter c = true ∧ c.toNat ≠ 82 ∧ c.toNat ≠ 114 ∧
    33 ≤ c.toNat ∧ c.toNat < 97 := by
  rcases mult_keys h with rfl | rfl | rfl | rfl | rfl | rfl | rfl | rfl | rfl | rfl | rfl | rfl
  · exact ⟨by decide, by decide, by decide, by decide, by decide, by decide⟩
  · exact ⟨by decide, by decide, by decide, by decide, by decide, by decide⟩
  · exact absurd rfl hc
  · exact ⟨by decide, by decide, by decide, by decide, by decide, by decide⟩
  · exact ⟨by decide, by decide, by decide, by decide, by decide, by decide⟩
  · exact ⟨by decide, by decide, by decide, by decide, by decide, by decide⟩
  · exact ⟨by decide, by decide, by decide, by decide, by decide, by decide⟩
  · exact ⟨by decide, by decide, by decide, by decide, by decide, by decide⟩
  · exact ⟨by decide, by decide, by decide, by decide, by decide, by decide⟩
  · exact ⟨by decide, by decide, by decide, by decide, by decide, by decide⟩
  · exact ⟨by decide, by decide, by decide, by decide, by decide, by decide⟩
  · exact ⟨by decide, by decide, by decide, by decide, by decide, by decide⟩

/-! ## Value helpers -/

theorem ok_congr {v w : ℚ} {s : String} (h : v = w) :
    (Except.ok ⟨v, s⟩ : Except String DecodeResult) = .ok ⟨w, s⟩ := by rw [h]

theorem natOfDigits_nil : natOfDigits [] = 0 := rfl

theorem natOfDigits_zero_char : natOfDigits ['0'] = 0 := by decide

/-- The value computed in the R branch, with the empty-group defaulting
unfolded: it is always integer part plus fraction over `10 ^ length`. -/
theorem r_ohms_eq (ip fp : List Char) :
    (natOfDigits (if ip = [] then ['0'] else ip) : ℚ)
      + (natOfDigits (if fp = [] then ['0'] else fp) : ℚ)
        / (10 : ℚ) ^ (List.length (if fp = [] then ['0'] else fp))
    = (natOfDigits ip : ℚ) + (natOfDigits fp : ℚ) / (10 : ℚ) ^ fp.length := by
  rcases eq_or_ne ip [] with rfl | h
  · rcases eq_or_ne fp [] with rfl | h2
    · rw [if_pos rfl, natOfDigits_zero_char, natOfDigits_nil]
      norm_num
    · rw [if_pos rfl, if_neg h2, natOfDigits_zero_char, natOfDigits_nil]
  · rcases eq_or_ne fp [] with rfl | h2
    · rw [if_neg h, if_pos rfl, natOfDigits_zero_char, natOfDigits_nil]
      norm_num
    · rw [if_neg h, if_neg h2]

theorem mem_three {x a b c : Char} (h : x ∈ [a, b, c]) : x = a ∨ x = b ∨ x = c := by
  simp only [List.mem_cons, List.not_mem_nil, or_false] at h
  exact h

theorem normalize_two_digits_letter {d1 d2 c : Char} (h1 : isDigit d1 = true)
    (h2 : isDigit d2 = true) (hc : isAsciiLetter c = true) :
    normalize [d1, d2, c] = [d1, d2, c.toUpper] := by
  have b1 := isDigit_iff.mp h1
  have b2 := isDigit_iff.mp h2
  have bc : 65 ≤ c.toNat := by
    rcases isAsciiLetter_iff.mp hc with ⟨h, _⟩ | ⟨h, _⟩ <;> omega
  have hge : ∀ x ∈ [d1, d2, c], 33 ≤ x.toNat := by
    intro x hx
    rcases mem_three hx with rfl | rfl | rfl <;> omega
  unfold normalize
  rw [strip_eq_self (fun x hx => pyWS_eq_false (hge x hx)),
      filter_nonspace_eq_self (fun x hx => ne_space (hge x hx)),
      List.map_cons, List.map_cons, List.map_cons, List.map_nil,
      isDigit_toUpper h1, isDigit_toUpper h2]

/-! ## Claim theorems -/

/-- Claim C3: for every R-as-decimal code `<a>R<b>` with `a`, `b` (possibly
empty) digit strings, `decode` returns the value of `<a or 0>.<b or 0>` as a
real number — that is, `natOfDigits a + natOfDigits b / 10 ^ |b|` — with
scheme `"R"`. -/
theorem C3_r_as_decimal (a b : List Char) (ha : a.all isDigit = true)
    (hb : b.all isDigit = true) :
    decode (a ++ 'R' :: b)
      = .ok ⟨(natOfDigits a : ℚ) + (natOfDigits b : ℚ) / (10 : ℚ) ^ b.length, "R"⟩ := by
  have hplain : ∀ c ∈ a ++ 'R' :: b, 33 ≤ c.toNat ∧ c.toNat < 97 := by
    intro c hc
    rcases List.mem_append.mp hc with h | h
    · have := isDigit_iff.mp (List.all_eq_true.mp ha c h)
      omega
    · rcases List.mem_cons.mp h with rfl | h
      · exact ⟨by decide, by decide⟩
      · have := isDigit_iff.mp (List.all_eq_true.mp hb c h)
        omega
  have hne : strip (a ++ 'R' :: b) ≠ [] := by
    rw [strip_eq_self_of_plain (fun c hc => (hplain c hc).1)]
    simp
  rw [decode_r_branch _ a b hne
        (by rw [normalize_eq_self hplain]; exact matchR_digits_r_digits ha hb),
      r_ohms_eq]

/-- Claim C3 witness: `decode("4R7") = 4.7 Ω`, scheme `"R"`. -/
theorem C3_r_as_decimal_witness :
    decode (['4'] ++ 'R' :: ['7'])
      = .ok ⟨(natOfDigits ['4'] : ℚ) + (natOfDigits ['7'] : ℚ) / (10 : ℚ) ^ (1 : ℕ), "R"⟩ :=
  C3_r_as_decimal ['4'] ['7'] (by decide) (by decide)

/-- Claim C10: the bare code `R` (also lowercase, also whitespace-padded)
decodes successfully to 0 ohms with scheme `"R"`: both digit groups are
empty and default to zero. -/
theorem C10_bare_r :
    decode ("R".data) = .ok ⟨0, "R"⟩ ∧ decode ("r".data) = .ok ⟨0, "R"⟩ ∧
    decode (" R ".data) = .ok ⟨0, "R"⟩ := by
  refine ⟨?_, ?_, ?_⟩ <;>
    · rw [decode_r_branch _ [] [] (by decide) (by decide), r_ohms_eq, natOfDigits_nil]
      exact ok_congr (by norm_num)

/-- Claim C1 counterexample: the claim includes the letter R among the
EIA-96 multiplier letters, but a two-digit-plus-R code is captured by the
R-as-decimal pattern, which is tried first: `decode("01R")` is 1 Ω with
scheme `"R"`, not `base * multiplier / 100` with scheme `"EIA-96"`. -/
theorem C1_counterexample :
    decode ("01R".data) = .ok ⟨1, "R"⟩ ∧
    decode ("01R".data) ≠ .ok ⟨(100 : ℚ) * (1/100) / 100, "EIA-96"⟩ := by
  have h : decode ("01R".data) = .ok ⟨1, "R"⟩ := by
    rw [decode_r_branch _ ['0', '1'] [] (by decide) (by decide), r_ohms_eq,
        natOfDigits_nil, show natOfDigits ['0', '1'] = 1 from by decide]
    exact ok_congr (by norm_num)
  refine ⟨h, ?_⟩
  rw [h]
  intro he
  injection he with he
  exact absurd (congrArg DecodeResult.scheme he) (by decide)

/-- General EIA-96 evaluation: two digits and a multiplier-table key other
than R decode through the EIA-96 branch. -/
theorem eia96_decode_general (d1 d2 c : Char) (m : ℚ) (h1 : isDigit d1 = true)
    (h2 : isDigit d2 = true) (hc : c ≠ 'R') (hm : EIA96_MULTIPLIERS c = some m)
    (hidx : 1 ≤ natOfDigits [d1, d2] ∧ natOfDigits [d1, d2] ≤ 96) :
    decode [d1, d2, c]
      = .ok ⟨(EIA96_BASES.getD (natOfDigits [d1, d2] - 1) 0 : ℚ) * m / 100, "EIA-96"⟩ := by
  obtain ⟨hcd, hcl, h82, h114, hlo, hhi⟩ := key_facts hm hc
  have b1 := isDigit_iff.mp h1
  have b2 := isDigit_iff.mp h2
  have hplain : ∀ x ∈ [d1, d2, c], 33 ≤ x.toNat ∧ x.toNat < 97 := by
    intro x hx
    rcases mem_three hx with rfl | rfl | rfl <;> omega
  have hnorm := normalize_eq_self hplain
  have hne : strip [d1, d2, c] ≠ [] := by
    rw [strip_eq_self_of_plain (fun x hx => (hplain x hx).1)]
    simp
  exact decode_eia_branch _ d1 d2 c m hne
    (by rw [hnorm]; exact matchR_two_digits_letter h1 h2 hcd h82 h114)
    (by rw [hnorm]; exact matchEIA96_some h1 h2 hcl) hidx hm

/-- Claim C1 (amended): for every EIA-96 code of two digits with index in
[1, 96] followed by a multiplier-table letter OTHER THAN R, decode returns
`EIA96_BASES[idx-1] * multiplier / 100` with scheme `"EIA-96"`.  (Codes
ending in the letter R are taken by the R-as-decimal scheme instead.) -/
theorem C1_eia96_decode (d1 d2 c : Char) (m : ℚ) (h1 : isDigit d1 = true)
    (h2 : isDigit d2 = true) (hc : c ≠ 'R') (hm : EIA96_MULTIPLIERS c = some m)
    (hidx : 1 ≤ natOfDigits [d1, d2] ∧ natOfDigits [d1, d2] ≤ 96) :
    decode [d1, d2, c]
      = .ok ⟨(EIA96_BASES.getD (natOfDigits [d1, d2] - 1) 0 : ℚ) * m / 100, "EIA-96"⟩ :=
  eia96_decode_general d1 d2 c m h1 h2 hc hm hidx

/-- Claim C1 witness: `decode("01C") = 100 * 100 / 100 = 100 Ω`, EIA-96. -/
theorem C1_eia96_decode_witness : decode ['0', '1', 'C'] = .ok ⟨100, "EIA-96"⟩ := by
  rw [C1_eia96_decode '0' '1' 'C' 100 (by decide) (by decide) (by decide) rfl
        ⟨by decide, by decide⟩]
  exact ok_congr (by
    rw [show natOfDigits ['0', '1'] - 1 = 0 from by decide,
        show EIA96_BASES.getD 0 0 = 100 from by decide]
    norm_num)

/-- Claim C2: a code of exactly three decimal digits `SSE` decodes to
`SS * 10 ^ E` with scheme `"3-digit"`, and a code of exactly four decimal
digits `SSSE` decodes to `SSS * 10 ^ E` with scheme `"4-digit"`. -/
theorem C2_fixed_digit :
    (∀ a b c : Char, isDigit a = true → isDigit b = true → isDigit c = true →
      decode [a, b, c]
        = .ok ⟨(natOfDigits [a, b] : ℚ) * (10 : ℚ) ^ digitVal c, "3-digit"⟩) ∧
    (∀ a b c d : Char, isDigit a = true → isDigit b = true → isDigit c = true →
      isDigit d = true →
      decode [a, b, c, d]
        = .ok ⟨(natOfDigits [a, b, c] : ℚ) * (10 : ℚ) ^ digitVal d, "4-digit"⟩) := by
  constructor
  · intro a b c ha hb hc
    have hall : [a, b, c].all isDigit = true := by
      simp [List.all_cons, ha, hb, hc]
    have hplain : ∀ x ∈ [a, b, c], 33 ≤ x.toNat ∧ x.toNat < 97 := by
      intro x hx
      have := isDigit_iff.mp (List.all_eq_true.mp hall x hx)
      omega
    have hnorm := normalize_eq_self hplain
    have hne : strip [a, b, c] ≠ [] := by
      rw [strip_eq_self_of_plain (fun x hx => (hplain x hx).1)]
      simp
    rw [decode_digit3_branch [a, b, c] [a, b, c] hne
          (by rw [hnorm]; exact matchR_all_digits hall)
          (by rw [hnorm]; exact matchEIA96_three_digits hc)
          (by rw [hnorm]; exact matchDigits_some (Or.inl rfl) hall) rfl]
    rfl
  · intro a b c d ha hb hc hd
    have hall : [a, b, c, d].all isDigit = true := by
      simp [List.all_cons, ha, hb, hc, hd]
    have hplain : ∀ x ∈ [a, b, c, d], 33 ≤ x.toNat ∧ x.toNat < 97 := by
      intro x hx
      have := isDigit_iff.mp (List.all_eq_true.mp hall x hx)
      omega
    have hnorm := normalize_eq_self hplain
    have hne : strip [a, b, c, d] ≠ [] := by
      rw [strip_eq_self_of_plain (fun x hx => (hplain x hx).1)]
      simp
    rw [decode_digit4_branch [a, b, c, d] [a, b, c, d] hne
          (by rw [hnorm]; exact matchR_all_digits hall)
          (by rw [hnorm]; exact matchEIA96_length (by simp))
          (by rw [hnorm]; exact matchDigits_some (Or.inr rfl) hall) rfl]
    rfl

/-- Claim C2 witness: `decode("103") = 10 * 10^3 = 10000`, scheme `"3-digit"`,
and `decode("1002") = 100 * 10^2 = 10000`, scheme `"4-digit"`. -/
theorem C2_fixed_digit_witness :
    decode ['1', '0', '3']
      = .ok ⟨(natOfDigits ['1', '0'] : ℚ) * (10 : ℚ) ^ digitVal '3', "3-digit"⟩ ∧
    decode ['1', '0', '0', '2']
      = .ok ⟨(natOfDigits ['1', '0', '0'] : ℚ) * (10 : ℚ) ^ digitVal '2', "4-digit"⟩ :=
  ⟨C2_fixed_digit.1 '1' '0' '3' (by decide) (by decide) (by decide),
   C2_fixed_digit.2 '1' '0' '0' '2' (by decide) (by decide) (by decide) (by decide)⟩

/-- Claim C6: the R-as-decimal pattern has priority — whenever the
normalised input matches the R pattern, `decode` succeeds with scheme `"R"`,
whatever else the string may resemble. -/
theorem C6_r_priority (l ip fp : List Char)
    (h : matchR (normalize l) = some (ip, fp)) :
    ∃ v : ℚ, decode l = .ok ⟨v, "R"⟩ := by
  have hne : strip l ≠ [] := by
    refine strip_ne_nil_of_normalize (fun he => ?_)
    rw [he] at h
    exact nomatch h
  exact ⟨_, decode_r_branch l ip fp hne h⟩

/-- Claim C6 witness: `"0R5"` matches the R pattern and decodes with
scheme `"R"`. -/
theorem C6_r_priority_witness : ∃ v : ℚ, decode ("0R5".data) = .ok ⟨v, "R"⟩ :=
  C6_r_priority ("0R5".data) ['0'] ['5'] (by decide)

/-- Helper for C5: a two-digit-plus-letter code whose letter is not R or r
and whose index is outside [1, 96] is rejected. -/
theorem decode_eia_shape_error (d1 d2 c : Char) (h1 : isDigit d1 = true)
    (h2 : isDigit d2 = true) (hl : isAsciiLetter c = true)
    (hu82 : (c.toUpper).toNat ≠ 82)
    (hrest : ¬(1 ≤ natOfDigits [d1, d2] ∧ natOfDigits [d1, d2] ≤ 96) ∨
      EIA96_MULTIPLIERS c.toUpper = none) :
    ∃ e, decode [d1, d2, c] = .error e := by
  obtain ⟨hu65, hu90, -⟩ := toUpper_letter_facts hl
  have hnorm := normalize_two_digits_letter h1 h2 hl
  have hne : strip [d1, d2, c] ≠ [] := by
    have b1 := isDigit_iff.mp h1
    have b2 := isDigit_iff.mp h2
    have bc : 65 ≤ c.toNat := by
      rcases isAsciiLetter_iff.mp hl with ⟨h, _⟩ | ⟨h, _⟩ <;> omega
    rw [strip_eq_self_of_plain (by
      intro x hx
      rcases mem_three hx with rfl | rfl | rfl <;> omega)]
    simp
  have hR : matchR (normalize [d1, d2, c]) = none := by
    rw [hnorm]
    exact matchR_two_digits_letter h1 h2 (isDigit_false_of_ge (by omega)) hu82 (by omega)
  have hE : matchEIA96 (normalize [d1, d2, c]) = some (d1, d2, c.toUpper) := by
    rw [hnorm]
    exact matchEIA96_some h1 h2 (isAsciiLetter_iff.mpr (Or.inl ⟨hu65, hu90⟩))
  rcases hrest with hidx | hm
  · exact ⟨_, decode_eia_range_error _ d1 d2 c.toUpper hne hR hE hidx⟩
  · by_cases hidx : 1 ≤ natOfDigits [d1, d2] ∧ natOfDigits [d1, d2] ≤ 96
    · exact ⟨_, decode_eia_mult_error _ d1 d2 c.toUpper hne hR hE hidx hm⟩
    · exact ⟨_, decode_eia_range_error _ d1 d2 c.toUpper hne hR hE hidx⟩

/-- Claim C5 counterexample: the claim says every `"00"`-plus-letter code is
rejected, but `decode("00R")` succeeds: the R-as-decimal pattern captures it
first and yields 0 Ω with scheme `"R"`. -/
theorem C5_counterexample :
    decode ("00R".data) = .ok ⟨0, "R"⟩ ∧ ∀ e, decode ("00R".data) ≠ .error e := by
  have h : decode ("00R".data) = .ok ⟨0, "R"⟩ := by
    rw [decode_r_branch _ ['0', '0'] [] (by decide) (by decide), r_ohms_eq,
        natOfDigits_nil, show natOfDigits ['0', '0'] = 0 from by decide]
    exact ok_congr (by norm_num)
  refine ⟨h, fun e he => ?_⟩
  rw [h] at he
  exact nomatch he

/-- Claim C5 (amended): `decode` fails with an error for each of: a string
that is empty after trimming; `"00"` or `"97"` followed by any single letter
OTHER THAN R or r (those two are captured by the R-as-decimal scheme and
succeed); any two-digit-plus-letter code whose (uppercased) letter is not a
multiplier-table key; the concrete string `"abcxyz"`; and any string on
which all three patterns fail. -/
theorem C5_invalid_inputs :
    (∀ l : List Char, strip l = [] →
      decode l = .error "code must be a non-empty string") ∧
    (∀ c : Char, isAsciiLetter c = true → c ≠ 'R' → c ≠ 'r' →
      ∃ e, decode ['0', '0', c] = .error e) ∧
    (∀ c : Char, isAsciiLetter c = true → c ≠ 'R' → c ≠ 'r' →
      ∃ e, decode ['9', '7', c] = .error e) ∧
    (∀ d1 d2 c : Char, isDigit d1 = true → isDigit d2 = true →
      isAsciiLetter c = true → EIA96_MULTIPLIERS c.toUpper = none →
      ∃ e, decode [d1, d2, c] = .error e) ∧
    (∃ e, decode ("abcxyz".data) = .error e) ∧
    (∀ l : List Char, matchR (normalize l) = none → matchEIA96 (normalize l) = none →
      matchDigits (normalize l) = none → ∃ e, decode l = .error e) := by
  have hu82 : ∀ c : Char, isAsciiLetter c = true → c ≠ 'R' → c ≠ 'r' →
      (c.toUpper).toNat ≠ 82 := by
    intro c hl hR hr
    obtain ⟨-, -, hiff⟩ := toUpper_letter_facts hl
    intro he
    rcases hiff.mp he with h | h
    · exact hR (char_eq_of_toNat_eq h)
    · exact hr (char_eq_of_toNat_eq h)
  refine ⟨decode_empty_error, ?_, ?_, ?_, ?_, decode_nomatch_error⟩
  · intro c hl hR hr
    exact decode_eia_shape_error '0' '0' c (by decide) (by decide) hl (hu82 c hl hR hr)
      (Or.inl (by rw [show natOfDigits ['0', '0'] = 0 from by decide]; omega))
  · intro c hl hR hr
    exact decode_eia_shape_error '9' '7' c (by decide) (by decide) hl (hu82 c hl hR hr)
      (Or.inl (by rw [show natOfDigits ['9', '7'] = 97 from by decide]; omega))
  · intro d1 d2 c h1 h2 hl hm
    obtain ⟨hup65, hup90, -⟩ := toUpper_letter_facts hl
    have h82 : (c.toUpper).toNat ≠ 82 := by
      intro he
      have : c.toUpper = 'R' := char_eq_of_toNat_eq he
      rw [this] at hm
      exact absurd hm (by decide)
    exact decode_eia_shape_error d1 d2 c h1 h2 hl h82 (Or.inr hm)
  · exact decode_nomatch_error ("abcxyz".data) (by decide) (by decide) (by decide)

/-- Claim C5 witness: the unknown letter G is rejected at a valid index. -/
theorem C5_invalid_inputs_witness : ∃ e, decode ['0', '1', 'G'] = .error e :=
  C5_invalid_inputs.2.2.2.1 '0' '1' 'G' (by decide) (by decide) (by decide) (by decide)

/-- Claim C8: every successful decode yields a non-negative resistance and
one of the four scheme labels; the EIA-96 base table has exactly 96
entries, each between 100 and 976. -/
theorem C8_invariants :
    (∀ (l : List Char) (r : DecodeResult), decode l = .ok r →
      0 ≤ r.ohms ∧ (r.scheme = "R" ∨ r.scheme = "EIA-96" ∨ r.scheme = "3-digit" ∨
        r.scheme = "4-digit")) ∧
    EIA96_BASES.length = 96 ∧ (∀ x ∈ EIA96_BASES, 100 ≤ x ∧ x ≤ 976) := by
  refine ⟨?_, by decide, by decide⟩
  intro l r h
  unfold decode at h
  split at h
  · exact nomatch h
  split at h
  · -- R branch
    injection h with h
    subst h
    exact ⟨by positivity, Or.inl rfl⟩
  split at h
  · -- EIA-96 shape matched
    split at h
    · split at h
      case _ m heq =>
        injection h with h
        subst h
        have hp := mult_pos heq
        exact ⟨div_nonneg (mul_nonneg (Nat.cast_nonneg _) hp.le) (by norm_num),
          Or.inr (Or.inl rfl)⟩
      · exact nomatch h
    · exact nomatch h
  split at h
  · -- fixed-digit branch
    split at h
    · injection h with h
      subst h
      exact ⟨by positivity, Or.inr (Or.inr (Or.inl rfl))⟩
    · injection h with h
      subst h
      exact ⟨by positivity, Or.inr (Or.inr (Or.inr rfl))⟩
  · exact nomatch h

/-- Claim C8 witness: `decode("0R0")` is a successful decode (0 Ω, scheme
`"R"`), so the invariant applies to it. -/
theorem C8_invariants_witness :
    0 ≤ (DecodeResult.mk 0 "R").ohms ∧
    ((DecodeResult.mk 0 "R").scheme = "R" ∨ (DecodeResult.mk 0 "R").scheme = "EIA-96" ∨
      (DecodeResult.mk 0 "R").scheme = "3-digit" ∨
      (DecodeResult.mk 0 "R").scheme = "4-digit") :=
  C8_invariants.1 ("0R0".data) ⟨0, "R"⟩ (by
    rw [decode_r_branch _ ['0'] ['0'] (by decide) (by decide), r_ohms_eq,
        show natOfDigits ['0'] = 0 from by decide]
    exact ok_congr (by norm_num))

/-- Claim C9: the multiplier table aliases R with Y, S with X, and H with B;
hence for any in-range two-digit index the codes with letters S and X (and
with H and B) decode to the same resistance. -/
theorem C9_aliased_multipliers :
    EIA96_MULTIPLIERS 'R' = EIA96_MULTIPLIERS 'Y' ∧
    EIA96_MULTIPLIERS 'S' = EIA96_MULTIPLIERS 'X' ∧
    EIA96_MULTIPLIERS 'H' = EIA96_MULTIPLIERS 'B' ∧
    (∀ d1 d2 : Char, isDigit d1 = true → isDigit d2 = true →
      1 ≤ natOfDigits [d1, d2] → natOfDigits [d1, d2] ≤ 96 →
      (∃ r1 r2 : DecodeResult, decode [d1, d2, 'S'] = .ok r1 ∧
        decode [d1, d2, 'X'] = .ok r2 ∧ r1.ohms = r2.ohms) ∧
      (∃ r1 r2 : DecodeResult, decode [d1, d2, 'H'] = .ok r1 ∧
        decode [d1, d2, 'B'] = .ok r2 ∧ r1.ohms = r2.ohms)) := by
  refine ⟨rfl, rfl, rfl, ?_⟩
  intro d1 d2 h1 h2 hlo hhi
  constructor
  · exact ⟨_, _, eia96_decode_general d1 d2 'S' (1/10) h1 h2 (by decide) rfl ⟨hlo, hhi⟩,
      eia96_decode_general d1 d2 'X' (1/10) h1 h2 (by decide) rfl ⟨hlo, hhi⟩, rfl⟩
  · exact ⟨_, _, eia96_decode_general d1 d2 'H' 10 h1 h2 (by decide) rfl ⟨hlo, hhi⟩,
      eia96_decode_general d1 d2 'B' 10 h1 h2 (by decide) rfl ⟨hlo, hhi⟩, rfl⟩

/-- Claim C9 witness: the alias consequence at index 01. -/
theorem C9_aliased_multipliers_witness :
    (∃ r1 r2 : DecodeResult, decode ['0', '1', 'S'] = .ok r1 ∧
      decode ['0', '1', 'X'] = .ok r2 ∧ r1.ohms = r2.ohms) ∧
    (∃ r1 r2 : DecodeResult, decode ['0', '1', 'H'] = .ok r1 ∧
      decode ['0', '1', 'B'] = .ok r2 ∧ r1.ohms = r2.ohms) :=
  C9_aliased_multipliers.2.2.2 '0' '1' (by decide) (by decide) (by decide) (by decide)

/-- Claim C7: `format_ohms` fails exactly on negative input: a negative
value gives the error, and every non-negative value formats to a string. -/
theorem C7_format_errors (q : ℚ) (p : ℕ) :
    (q < 0 → format_ohms q p = .error "ohms must be non-negative") ∧
    (0 ≤ q → ∃ s, format_ohms q p = .ok s) := by
  constructor
  · intro h
    unfold format_ohms
    rw [if_pos h]
  · intro h
    unfold format_ohms
    rw [if_neg (not_lt.mpr h)]
    split_ifs <;> exact ⟨_, rfl⟩

/-- Claim C7 witness: `format_ohms(-1)` errors; `format_ohms(1)` succeeds. -/
theorem C7_format_errors_witness :
    format_ohms (-1) 3 = .error "ohms must be non-negative" ∧
    ∃ s, format_ohms 1 3 = .ok s :=
  ⟨(C7_format_errors (-1) 3).1 (by norm_num), (C7_format_errors 1 3).2 (by norm_num)⟩

/-- Claim C4: the code FALLS THROUGH all the listed units at 0 (0 is below
even the milli threshold) and renders 0 with the micro unit: the result
is `"0µΩ"`, not the `"0Ω"` the claim states. -/
theorem C4_format_zero :
    format_ohms 0 3 = .ok "0µΩ" ∧ format_ohms 0 3 ≠ .ok "0Ω" := by
  have h : format_ohms 0 3 = .ok "0µΩ" := by
    unfold format_ohms
    rw [if_neg (by norm_num), if_neg (by norm_num), if_neg (by norm_num),
        if_neg (by norm_num), if_neg (by norm_num),
        show (0 : ℚ) / (1/1000000) = 0 by norm_num]
    rw [show gfmt 0 3 = "0" from by unfold gfmt; rw [if_pos rfl]]
    rfl
  exact ⟨h, by rw [h]; intro he; injection he with he; exact absurd he (by decide)⟩

end SmdResistor
